import Mathlib

/-!
Verification of the claude-context repository: a shallow embedding of
the MCP path utilities (`packages/mcp/src/utils.ts`), the Vertex AI
embedding provider (`packages/core/src/embedding/vertexai-embedding.ts`)
and the CLI indexing lifecycle (`runIndex` in the CLI entry point),
together with proofs of the specification claims about them.

Strings are modelled through their character lists (`List Char`), which
matches JavaScript string operations (`replace`, `substring`, `endsWith`,
`slice`) acting on code units.  The ambient current working directory of
`process.cwd()` is passed explicitly.  The model fixes a POSIX platform
(`process.platform !== "win32"`), so the final Windows-only lowercasing
branch of `normalizePath` is skipped and `path.resolve` is
`path.posix.resolve`.
-/

set_option autoImplicit false

deriving instance DecidableEq for Except

namespace ClaudeContext

/-- Model of `truncateContent` from `packages/mcp/src/utils.ts`:
if the content length is at most `maxLength` the content is returned
unchanged, otherwise the first `maxLength` characters (JavaScript
`substring(0, maxLength)`) are returned with the literal suffix `...`
appended. -/
def truncateContent (content : String) (maxLength : Nat) : String :=
  if content.length ≤ maxLength then content
  else String.mk (content.data.take maxLength) ++ "..."

/-- Prepend a character to the first piece of a segment list (the
non-separator step of splitting on slashes). -/
def consHead (c : Char) : List (List Char) → List (List Char)
  | [] => [[c]]
  | s :: rest => (c :: s) :: rest

/-- Split a character list at every forward slash.  This models the
segment structure that `path.posix.resolve` works with: the result is
the list of (possibly empty) pieces between `/` characters, and is
always nonempty. -/
def splitSlash : List Char → List (List Char)
  | [] => [[]]
  | c :: cs => if c = '/' then [] :: splitSlash cs else consHead c (splitSlash cs)

/-- Join segments back with forward slashes; inverse of `splitSlash`. -/
def joinSlash : List (List Char) → List Char
  | [] => []
  | [s] => s
  | s :: rest => s ++ '/' :: joinSlash rest

/-- One step of the dot-segment resolution performed by
`path.posix.resolve`: empty segments and `.` are dropped, `..` removes
the previous segment (staying at the root when there is none), and any
other segment is kept. -/
def normStep (acc : List (List Char)) (s : List Char) : List (List Char) :=
  if s = [] ∨ s = ['.'] then acc
  else if s = ['.', '.'] then acc.dropLast
  else acc ++ [s]

/-- Resolution of `.`, `..` and empty segments of an absolute path, as
performed by `path.posix.resolve`. -/
def normSegs (segs : List (List Char)) : List (List Char) :=
  segs.foldl normStep []

/-- Model of `path.resolve(inputPath)` on a POSIX platform with current
working directory `cwd` (an absolute path): a relative input is first
appended to `cwd`, then `.`/`..`/empty segments are resolved.  The
result always starts with `/` and never has a trailing slash except for
the root itself. -/
def resolveChars (cwd p : List Char) : List Char :=
  let full := if p.head? = some '/' then p else cwd ++ '/' :: p
  '/' :: joinSlash (normSegs (splitSlash full))

/-- Model of `normalized.replace(/\\/g, '/')`: every backslash becomes a
forward slash. -/
def slashify (cs : List Char) : List Char :=
  cs.map (fun c => if c = '\\' then '/' else c)

/-- Model of the regular expression test for a bare Windows drive root,
which matches exactly a letter, a colon and a final forward slash. -/
def isDriveRootChars : List Char → Bool
  | [a, b, c] => a.isAlpha && b == ':' && c == '/'
  | _ => false

/-- The trailing-slash stripping loop of `normalizePath`, with explicit
fuel (the loop removes one character per iteration, so the initial
length is enough fuel): while the string is longer than one character
and ends with `/`, and is not a bare drive root, drop the last
character. -/
def stripTrailLoop : Nat → List Char → List Char
  | 0, cs => cs
  | fuel + 1, cs =>
    if 1 < cs.length ∧ cs.getLast? = some '/' ∧ isDriveRootChars cs = false then
      stripTrailLoop fuel cs.dropLast
    else cs

/-- Trailing-slash stripping of `normalizePath`, entered with enough
fuel to run the loop to completion. -/
def stripTrail (cs : List Char) : List Char :=
  stripTrailLoop cs.length cs

/-- Model of `normalizePath` from `packages/mcp/src/utils.ts` on a POSIX
platform: an empty input is returned unchanged (the falsy-input guard);
otherwise the input is resolved to an absolute path, backslashes are
unified to forward slashes, and trailing slashes are stripped (keeping a
bare drive root).  The Windows-only lowercasing branch is skipped on
POSIX. -/
def normalizePath (cwd inputPath : String) : String :=
  if inputPath = "" then inputPath
  else String.mk (stripTrail (slashify (resolveChars cwd.data inputPath.data)))

/-- Model of `ensureAbsolutePath` from `packages/mcp/src/utils.ts`,
which simply delegates to `normalizePath`. -/
def ensureAbsolutePath (cwd inputPath : String) : String :=
  normalizePath cwd inputPath

/-- A plain path segment: nonempty and not a dot segment.  Such
segments pass through the dot-segment resolution of `path.resolve`
untouched. -/
def PlainSeg (s : List Char) : Prop :=
  s ≠ [] ∧ s ≠ ['.'] ∧ s ≠ ['.', '.']

instance : DecidablePred PlainSeg := fun s => by
  unfold PlainSeg
  infer_instance

/-- A well-formed working directory for the POSIX model of
`process.cwd()`: backslash-free, and either the root `/` or an absolute
path whose slash-separated segments are all plain, with no trailing
slash. -/
def GoodCwd (cwd : String) : Prop :=
  '\\' ∉ cwd.data ∧
  (cwd = "/" ∨ (cwd.data.head? = some '/' ∧ (splitSlash cwd.data).tail ≠ [] ∧
    ∀ s ∈ (splitSlash cwd.data).tail, PlainSeg s))

instance (cwd : String) : Decidable (GoodCwd cwd) := by
  unfold GoodCwd
  infer_instance

/-- The separator-unified segments of an input path: the pieces of the
path after backslashes are read as separators, dropping the leading
empty piece of an absolute path. -/
def pathGoodSegs (p : String) : List (List Char) :=
  if p.data.head? = some '/' then (splitSlash (slashify p.data)).tail
  else splitSlash (slashify p.data)

/-- A path on which separator style is harmless: nonempty, and every
separator-unified segment is plain — no `.`, `..` or empty segment
hides behind a backslash (and no trailing separator). -/
def GoodPath (p : String) : Prop :=
  p ≠ "" ∧ ∀ s ∈ pathGoodSegs p, PlainSeg s

instance (p : String) : Decidable (GoodPath p) := by
  unfold GoodPath
  infer_instance

/-! ## Vertex AI embedding provider

Model of `packages/core/src/embedding/vertexai-embedding.ts`.  The
process environment (`process.env`) is passed explicitly.  JavaScript
truthiness of optional string configuration matters: an unset variable
and an empty string are both falsy in the `a || b` chains. -/

/-- Configuration record `VertexAIEmbeddingConfig` of the provider:
model name, optional project ID, optional location and optional
Matryoshka-style output dimensionality. -/
structure VertexAIEmbeddingConfig where
  model : String
  projectId : Option String := none
  location : Option String := none
  outputDimensionality : Option Nat := none
deriving DecidableEq

/-- The environment variables consulted by the provider constructor
(`none` models an unset variable). -/
structure VertexEnv where
  vertexProject : Option String := none
  googleCloudProject : Option String := none
  vertexLocation : Option String := none
  googleCloudLocation : Option String := none
deriving DecidableEq

/-- JavaScript truthiness of an optional string: unset and empty are
falsy. -/
def jsTruthy : Option String → Bool
  | none => false
  | some s => !(s == "")

/-- JavaScript `a || b` on optional strings. -/
def jsOr (a b : Option String) : Option String :=
  if jsTruthy a then a else b

/-- JavaScript `a || b` where `a` is a plain string and the empty string
is falsy. -/
def jsOrStr (a b : String) : String :=
  if a = "" then b else a

/-- One entry of the static model registry: dimension, context length,
description and the optional list of supported Matryoshka dimensions. -/
structure VertexModelInfo where
  dimension : Nat
  contextLength : Nat
  description : String
  supportedDimensions : Option (List Nat) := none
deriving DecidableEq

/-- The static registry `VertexAIEmbedding.getSupportedModels()`, which
contains exactly the `gemini-embedding-001` entry. -/
def getSupportedModels : String → Option VertexModelInfo :=
  fun name =>
    if name = "gemini-embedding-001" then
      some { dimension := 3072
             contextLength := 2048
             description := "Gemini text embedding model served via Vertex AI (recommended)"
             supportedDimensions := some [3072, 1536, 768, 256] }
    else none

/-- Model of `updateDimensionForModel`: look the model up in the static
registry and adopt its dimension and context length, falling back to
dimension 3072 and context length 2048 for unknown models.  Returns the
pair (dimension, maxTokens) that the method assigns to the instance
fields. -/
def updateDimensionForModel (model : String) : Nat × Nat :=
  match getSupportedModels model with
  | some info => (info.dimension, info.contextLength)
  | none => (3072, 2048)

/-- A constructed `VertexAIEmbedding` instance: the stored
configuration, the resolved project and location, and the resolved
dimension and maximum token count. -/
structure VertexAIEmbedding where
  config : VertexAIEmbeddingConfig
  projectId : String
  location : String
  dimension : Nat
  maxTokens : Nat
deriving DecidableEq

/-- Model of the `VertexAIEmbedding` constructor.  The project ID is
resolved from the explicit configuration, then `VERTEX_PROJECT`, then
`GOOGLE_CLOUD_PROJECT` (no further fallback); the location from the
explicit configuration, then `VERTEX_LOCATION`, then
`GOOGLE_CLOUD_LOCATION`, with hard-coded fallback `global`.  If no
project ID tier is truthy, construction throws the configuration error
(modelled as `Except.error` with the thrown message).  Afterwards the
dimension and maximum token count are resolved via
`updateDimensionForModel` on `config.model || "gemini-embedding-001"`,
and a truthy explicit `outputDimensionality` overrides the dimension
(`0` is falsy in JavaScript and is ignored by the `if` guard). -/
def VertexAIEmbedding.construct (config : VertexAIEmbeddingConfig) (env : VertexEnv) :
    Except String VertexAIEmbedding :=
  let projectId := jsOr config.projectId (jsOr env.vertexProject env.googleCloudProject)
  let location :=
    jsOr config.location (jsOr env.vertexLocation (jsOr env.googleCloudLocation (some "global")))
  if jsTruthy projectId = false then
    .error "[VertexAIEmbedding] Project ID is required. Set projectId in config or VERTEX_PROJECT / GOOGLE_CLOUD_PROJECT env."
  else
    let base := updateDimensionForModel (jsOrStr config.model "gemini-embedding-001")
    let dimension :=
      match config.outputDimensionality with
      | some d => if d ≠ 0 then d else base.1
      | none => base.1
    .ok { config := config
          projectId := projectId.getD ""
          location := location.getD ""
          dimension := dimension
          maxTokens := base.2 }

/-- `getDimension()`: the resolved dimension of the instance. -/
def VertexAIEmbedding.getDimension (e : VertexAIEmbedding) : Nat :=
  e.dimension

/-- `getSupportedDimensions()`: the registry entry of
`config.model || "gemini-embedding-001"`, taking its
`supportedDimensions` when present and otherwise the singleton of the
resolved instance dimension. -/
def VertexAIEmbedding.getSupportedDimensions (e : VertexAIEmbedding) : List Nat :=
  match getSupportedModels (jsOrStr e.config.model "gemini-embedding-001") with
  | some info => info.supportedDimensions.getD [e.dimension]
  | none => [e.dimension]

/-- `isDimensionSupported(d)`: membership in `getSupportedDimensions()`. -/
def VertexAIEmbedding.isDimensionSupported (e : VertexAIEmbedding) (d : Nat) : Bool :=
  (e.getSupportedDimensions).contains d

/-- An embedding vector as returned by the provider: the raw values and
the reported dimension (the length of the values). -/
structure EmbeddingVector where
  vector : List Rat
  dimension : Nat
deriving DecidableEq

/-- One element of the backend response array for a batch request;
`values` is `none` when the returned embedding lacks vector data. -/
structure RawEmbedding where
  values : Option (List Rat) := none
deriving DecidableEq

/-- The backend response for `embedContent`: `embeddings` is `none` when
the response carries no embeddings array at all. -/
structure VertexBatchResponse where
  embeddings : Option (List RawEmbedding) := none
deriving DecidableEq

/-- A failure thrown by the backend call: `message` is `some` of the
error message when the thrown value is an `Error` instance and `none`
otherwise (the catch block then reports `Unknown error`). -/
structure VertexBackendFailure where
  message : Option String := none
deriving DecidableEq

/-- The message wrapping applied by the catch block of `embedBatch`. -/
def wrapBatchError (cause : String) : String :=
  "Vertex AI batch embedding failed: " ++ cause

/-- The `response.embeddings.map(...)` loop of `embedBatch`: each
returned embedding must carry vector data, otherwise the whole batch
throws (`Vertex AI embedding API returned invalid embedding data`); a
successful pass turns the i-th returned embedding into the i-th output
vector, with the reported dimension equal to the length of its values. -/
def collectEmbeddings : List RawEmbedding → Except String (List EmbeddingVector)
  | [] => .ok []
  | e :: rest =>
    match e.values with
    | none => .error "Vertex AI embedding API returned invalid embedding data"
    | some v => (collectEmbeddings rest).map (fun vs => { vector := v, dimension := v.length } :: vs)

/-- Model of the response handling of `embedBatch`.  The outcome of the
backend call `client.models.embedContent` is the oracle input
`response` (`Except.error` models a thrown transport failure, caught by
the catch block).  A response without an embeddings array throws
`Vertex AI embedding API returned invalid response`; any element
without vector data aborts the whole batch; every error is wrapped with
the `Vertex AI batch embedding failed:` prefix by the catch block.  The
input texts only influence the request that is sent (after
preprocessing), not the handling of the response, so they do not appear
here; no length check ties the response to the input texts. -/
def vertexEmbedBatch (response : Except VertexBackendFailure VertexBatchResponse) :
    Except String (List EmbeddingVector) :=
  match response with
  | .error f => .error (wrapBatchError (f.message.getD "Unknown error"))
  | .ok resp =>
    match resp.embeddings with
    | none => .error (wrapBatchError "Vertex AI embedding API returned invalid response")
    | some embs => (collectEmbeddings embs).mapError wrapBatchError

/-! ## Snapshot store and indexing lifecycle

The CLI entry point drives `runIndex`; its pre-flight checks, state
transitions and persistence calls are in the visible source.  The
`SnapshotManager` class itself (`packages/mcp/src/snapshot.ts`) is only
exported and called from the visible source, so its operations are
modelled from the specification. -/

/-- The per-codebase status enumeration of the snapshot store. -/
inductive CodebaseStatus where
  | notIndexed
  | indexing
  | indexed
  | indexFailed
deriving DecidableEq

/-- Final statistics reported by the indexing pipeline. -/
structure IndexStats where
  indexedFiles : Nat
  totalChunks : Nat
  status : String
deriving DecidableEq

/-- One persisted record of the snapshot store: status, last observed
progress percentage, optional last error message and optional last
successful-index statistics. -/
structure IndexRecord where
  status : CodebaseStatus
  progressPercentage : Rat
  lastError : Option String := none
  lastIndexedStats : Option IndexStats := none
deriving DecidableEq

/-- The state of a `SnapshotManager`: the in-memory mapping from
codebase identity to record, the durably persisted mapping, and the
history of mappings passed to `saveCodebaseSnapshot` (oldest first),
which makes the order of persistence events observable. -/
structure SnapshotManagerState where
  memory : List (String × IndexRecord)
  disk : List (String × IndexRecord)
  saves : List (List (String × IndexRecord)) := []
deriving DecidableEq

/-- Look up the record of an identity in a mapping. -/
def lookupRecord (m : List (String × IndexRecord)) (key : String) : Option IndexRecord :=
  m.lookup key

/-- Create or overwrite the record of an identity in a mapping, leaving
every other identity unchanged. -/
def setRecord (m : List (String × IndexRecord)) (key : String) (r : IndexRecord) :
    List (String × IndexRecord) :=
  (key, r) :: m.filter (fun kv => kv.1 ≠ key)

/-- Modelled from the spec: `SnapshotManager.getCodebaseStatus` (the
implementation in `packages/mcp/src/snapshot.ts` is not part of the
visible source) returns the status of the in-memory record, or
`not_indexed` when no record exists. -/
def getCodebaseStatus (mgr : SnapshotManagerState) (path : String) : CodebaseStatus :=
  ((lookupRecord mgr.memory path).map (fun r => r.status)).getD .notIndexed

/-- Modelled from the spec: `SnapshotManager.setCodebaseIndexing`
creates or overwrites the in-memory record with status `indexing` and
the given initial progress. -/
def setCodebaseIndexing (mgr : SnapshotManagerState) (path : String) (progress : Rat) :
    SnapshotManagerState :=
  let r : IndexRecord := { status := .indexing, progressPercentage := progress }
  { mgr with memory := setRecord mgr.memory path r }

/-- Modelled from the spec: `SnapshotManager.setCodebaseIndexed`
transitions the in-memory record to `indexed`, stores the final
statistics and clears any prior error, keeping the last observed
progress. -/
def setCodebaseIndexed (mgr : SnapshotManagerState) (path : String) (stats : IndexStats) :
    SnapshotManagerState :=
  let prior := lookupRecord mgr.memory path
  let r : IndexRecord :=
    { status := .indexed
      progressPercentage := (prior.map (fun r => r.progressPercentage)).getD 0
      lastError := none
      lastIndexedStats := some stats }
  { mgr with memory := setRecord mgr.memory path r }

/-- Modelled from the spec: `SnapshotManager.setCodebaseIndexFailed`
transitions the in-memory record to `index_failed` with the error
message, retains the given last observed progress for diagnostics, and
preserves statistics from any prior success. -/
def setCodebaseIndexFailed (mgr : SnapshotManagerState) (path : String)
    (message : String) (lastProgress : Rat) : SnapshotManagerState :=
  let prior := lookupRecord mgr.memory path
  let r : IndexRecord :=
    { status := .indexFailed
      progressPercentage := lastProgress
      lastError := some message
      lastIndexedStats := prior.bind (fun r => r.lastIndexedStats) }
  { mgr with memory := setRecord mgr.memory path r }

/-- Modelled from the spec: `SnapshotManager.saveCodebaseSnapshot`
durably persists the full in-memory mapping (and the model records the
persistence event in the save history). -/
def saveCodebaseSnapshot (mgr : SnapshotManagerState) : SnapshotManagerState :=
  { mgr with disk := mgr.memory, saves := mgr.saves ++ [mgr.memory] }

/-- Modelled from the spec: `SnapshotManager.loadCodebaseSnapshot` reads
the persisted mapping into memory at process start (a fresh manager for
the given persisted state). -/
def loadCodebaseSnapshot (disk : List (String × IndexRecord)) : SnapshotManagerState :=
  { memory := disk, disk := disk, saves := [] }

/-- The options of the CLI `index` command that `runIndex` receives. -/
structure IndexOptions where
  force : Bool := false
  splitter : String := "ast"
  ext : List String := []
  ignore : List String := []
deriving DecidableEq

/-- The custom configuration of the `Context` pipeline object that
`runIndex` may extend; the `Context` class itself is an external
collaborator of the visible source. -/
structure ContextState where
  customExtensions : List String := []
  customIgnorePatterns : List String := []
deriving DecidableEq

/-- `context.addCustomExtensions`: registers additional file
extensions with the pipeline configuration. -/
def addCustomExtensions (ctx : ContextState) (exts : List String) : ContextState :=
  { ctx with customExtensions := ctx.customExtensions ++ exts }

/-- `context.addCustomIgnorePatterns`: registers additional ignore
patterns with the pipeline configuration. -/
def addCustomIgnorePatterns (ctx : ContextState) (patterns : List String) : ContextState :=
  { ctx with customIgnorePatterns := ctx.customIgnorePatterns ++ patterns }

/-- One progress event emitted by the indexing pipeline. -/
structure ProgressEvent where
  percentage : Rat
  phase : String
deriving DecidableEq

/-- A value thrown by the indexing pipeline: `message` is `some` of the
`message` property when present, and `asString` is its `String(error)`
rendering. -/
structure PipelineError where
  message : Option String := none
  asString : String := ""
deriving DecidableEq

/-- The message extraction `error?.message || String(error)` of the
catch block: a missing or empty (falsy) message falls back to the
stringified error. -/
def effectiveMessage (err : PipelineError) : String :=
  match err.message with
  | some m => if m = "" then err.asString else m
  | none => err.asString

/-- The behavior of one `context.indexCodebase` invocation: the ordered
progress events delivered to the progress callback, followed by either
final statistics or a thrown failure. -/
inductive PipelineOutcome where
  | success (events : List ProgressEvent) (stats : IndexStats)
  | failure (events : List ProgressEvent) (error : PipelineError)
deriving DecidableEq

/-- The value of the `lastProgress` variable after the progress
callback ran on every event: the percentage of the last event, or the
initial `0` when no event was delivered. -/
def lastProgressOf (events : List ProgressEvent) : Rat :=
  events.foldl (fun _ e => e.percentage) 0

/-- The terminal errors of `runIndex` (each `console.error` +
`process.exit(1)` site, and the catch block), tagged with the path they
report. -/
inductive IndexError where
  | pathNotFound (path : String)
  | notDirectory (path : String)
  | alreadyIndexing (path : String)
  | alreadyIndexed (path : String)
  | collectionLimit
  | pipelineFailed (message : String)
deriving DecidableEq

/-- The external world one `runIndex` run observes: the working
directory, the filesystem checks, the `context.hasIndex` probe, the
vector-store capacity check and the pipeline behavior. -/
structure RunWorld where
  cwd : String
  fsExists : String → Bool
  isDirectory : String → Bool
  hasIndex : String → Bool
  checkCollectionLimit : Bool
  pipeline : PipelineOutcome

/-- Model of `runIndex` from the CLI entry point.  The path argument is
normalized with `ensureAbsolutePath`; then the pre-flight checks run in
source order (existence, directory, `indexing` status, existing index
without `--force`, collection limit), each terminating the run without
touching the snapshot; then custom extensions and ignore patterns are
registered; then the record transitions to `indexing` with progress 0
and is persisted immediately; then the pipeline runs, and its success
or failure is finalized into the persisted `indexed` or `index_failed`
record before the run returns.  The returned triple is the final
snapshot manager state, the final pipeline context and the outcome
(`process.exit(1)` sites are modelled as `Except.error`). -/
def runIndex (pathArg : String) (options : IndexOptions) (w : RunWorld)
    (mgr : SnapshotManagerState) (ctx : ContextState) :
    SnapshotManagerState × ContextState × Except IndexError IndexStats :=
  let absolutePath := ensureAbsolutePath w.cwd pathArg
  if w.fsExists absolutePath = false then
    (mgr, ctx, .error (.pathNotFound absolutePath))
  else if w.isDirectory absolutePath = false then
    (mgr, ctx, .error (.notDirectory absolutePath))
  else
    let force := options.force
    if getCodebaseStatus mgr absolutePath = .indexing then
      (mgr, ctx, .error (.alreadyIndexing absolutePath))
    else if w.hasIndex absolutePath && !force then
      (mgr, ctx, .error (.alreadyIndexed absolutePath))
    else if w.checkCollectionLimit = false then
      (mgr, ctx, .error .collectionLimit)
    else
      let ctx1 := if 0 < options.ext.length then addCustomExtensions ctx options.ext else ctx
      let ctx2 := if 0 < options.ignore.length then addCustomIgnorePatterns ctx1 options.ignore else ctx1
      let mgr1 := saveCodebaseSnapshot (setCodebaseIndexing mgr absolutePath 0)
      match w.pipeline with
      | .success _ stats =>
        let mgr2 := saveCodebaseSnapshot (setCodebaseIndexed mgr1 absolutePath stats)
        (mgr2, ctx2, .ok stats)
      | .failure events error =>
        let lastProgress := lastProgressOf events
        let message := effectiveMessage error
        let mgr2 := saveCodebaseSnapshot (setCodebaseIndexFailed mgr1 absolutePath message lastProgress)
        (mgr2, ctx2, .error (.pipelineFailed message))

/-! ## Helper lemmas -/

/-- Looking up the key just written by `setRecord` yields the written
record. -/
theorem lookupRecord_setRecord_self (m : List (String × IndexRecord)) (key : String)
    (r : IndexRecord) : lookupRecord (setRecord m key r) key = some r := by
  simp [lookupRecord, setRecord, List.lookup]

/-- The constructor unfolded into its branches: the thrown
configuration error when no project tier is truthy, otherwise the
record with all resolved fields. -/
theorem vertex_construct_eq (config : VertexAIEmbeddingConfig) (env : VertexEnv) :
    VertexAIEmbedding.construct config env =
      (if jsTruthy (jsOr config.projectId (jsOr env.vertexProject env.googleCloudProject)) = false
        then Except.error "[VertexAIEmbedding] Project ID is required. Set projectId in config or VERTEX_PROJECT / GOOGLE_CLOUD_PROJECT env."
        else Except.ok (VertexAIEmbedding.mk config
          ((jsOr config.projectId (jsOr env.vertexProject env.googleCloudProject)).getD "")
          ((jsOr config.location
            (jsOr env.vertexLocation (jsOr env.googleCloudLocation (some "global")))).getD "")
          (match config.outputDimensionality with
            | some d => if d ≠ 0 then d
                else (updateDimensionForModel (jsOrStr config.model "gemini-embedding-001")).1
            | none => (updateDimensionForModel (jsOrStr config.model "gemini-embedding-001")).1)
          (updateDimensionForModel (jsOrStr config.model "gemini-embedding-001")).2)) :=
  rfl

/-- A nonempty explicit string is truthy. -/
theorem jsTruthy_some_ne (s : String) (h : s ≠ "") : jsTruthy (some s) = true := by
  simp [jsTruthy, h]

/-- A truthy left operand wins in `a || b`. -/
theorem jsOr_of_truthy (a b : Option String) (h : jsTruthy a = true) : jsOr a b = a := by
  simp [jsOr, h]

/-- A falsy left operand defers to the right operand in `a || b`. -/
theorem jsOr_of_falsy (a b : Option String) (h : jsTruthy a = false) : jsOr a b = b := by
  simp [jsOr, h]

/-- Truthiness of `a || b` is the disjunction of truthiness. -/
theorem jsTruthy_jsOr (a b : Option String) :
    jsTruthy (jsOr a b) = (jsTruthy a || jsTruthy b) := by
  by_cases h : jsTruthy a = true
  · simp [jsOr, h]
  · simp only [Bool.not_eq_true] at h
    simp [jsOr, h]

/-- Any successfully constructed provider carries the project ID
resolved through the three-tier `||` chain. -/
theorem vertex_projectId_of_ok (config : VertexAIEmbeddingConfig) (env : VertexEnv)
    (e : VertexAIEmbedding) (hok : VertexAIEmbedding.construct config env = .ok e) :
    e.projectId =
      (jsOr config.projectId (jsOr env.vertexProject env.googleCloudProject)).getD "" := by
  rw [vertex_construct_eq] at hok
  by_cases hc : jsTruthy (jsOr config.projectId (jsOr env.vertexProject env.googleCloudProject)) = false
  · rw [if_pos hc] at hok; cases hok
  · rw [if_neg hc] at hok
    injection hok with h
    rw [← h]

/-- Any successfully constructed provider carries the location resolved
through the four-tier `||` chain ending in the `global` fallback. -/
theorem vertex_location_of_ok (config : VertexAIEmbeddingConfig) (env : VertexEnv)
    (e : VertexAIEmbedding) (hok : VertexAIEmbedding.construct config env = .ok e) :
    e.location = (jsOr config.location
      (jsOr env.vertexLocation (jsOr env.googleCloudLocation (some "global")))).getD "" := by
  rw [vertex_construct_eq] at hok
  by_cases hc : jsTruthy (jsOr config.projectId (jsOr env.vertexProject env.googleCloudProject)) = false
  · rw [if_pos hc] at hok; cases hok
  · rw [if_neg hc] at hok
    injection hok with h
    rw [← h]

/-- Collecting a batch of embeddings that all carry vector data yields
one output vector per returned embedding, in order, with the reported
dimension equal to the length of its values. -/
theorem collectEmbeddings_all_some (vss : List (List Rat)) :
    collectEmbeddings (vss.map fun v => RawEmbedding.mk (some v)) =
      .ok (vss.map fun v => EmbeddingVector.mk v v.length) := by
  induction vss with
  | nil => rfl
  | cons v rest ih => simp [collectEmbeddings, ih, Except.map]

/-- Collecting a batch that contains any embedding without vector data
fails as a whole with the invalid-embedding-data error. -/
theorem collectEmbeddings_missing_values (embs : List RawEmbedding) (e : RawEmbedding)
    (he : e ∈ embs) (hv : e.values = none) :
    collectEmbeddings embs = .error "Vertex AI embedding API returned invalid embedding data" := by
  induction embs with
  | nil => cases he
  | cons a rest ih =>
    cases he with
    | head => simp [collectEmbeddings, hv]
    | tail _ hmem =>
      cases hva : a.values with
      | none => simp [collectEmbeddings, hva]
      | some v => simp [collectEmbeddings, hva, ih hmem, Except.map]

/-- Splitting never yields an empty list of pieces. -/
theorem splitSlash_ne_nil (cs : List Char) : splitSlash cs ≠ [] := by
  induction cs with
  | nil => simp [splitSlash]
  | cons c cs ih =>
    by_cases h : c = '/'
    · simp [splitSlash, h]
    · simp only [splitSlash, h, if_false]
      cases hsp : splitSlash cs with
      | nil => simp [consHead]
      | cons s rest => simp [consHead]

/-- Prepending a non-separator character commutes with appending later
pieces. -/
theorem consHead_append (c : Char) (A B : List (List Char)) (h : A ≠ []) :
    consHead c (A ++ B) = consHead c A ++ B := by
  cases A with
  | nil => exact absurd rfl h
  | cons s rest => simp [consHead]

/-- Splitting distributes over an explicit separator. -/
theorem splitSlash_append_slash (x y : List Char) :
    splitSlash (x ++ '/' :: y) = splitSlash x ++ splitSlash y := by
  induction x with
  | nil => simp [splitSlash]
  | cons c x ih =>
    by_cases h : c = '/'
    · simp [splitSlash, h, ih]
    · have hstep : splitSlash ((c :: x) ++ '/' :: y) = consHead c (splitSlash (x ++ '/' :: y)) := by
        rw [List.cons_append, splitSlash, if_neg h]
      rw [hstep, ih, consHead_append c (splitSlash x) (splitSlash y) (splitSlash_ne_nil x),
        splitSlash, if_neg h]

/-- Joining a two-or-more piece list starts with its first piece and a
separator. -/
theorem joinSlash_cons (s : List Char) (rest : List (List Char)) (h : rest ≠ []) :
    joinSlash (s :: rest) = s ++ '/' :: joinSlash rest := by
  cases rest with
  | nil => exact absurd rfl h
  | cons t ts => rfl

/-- Joining after a non-separator prepend prepends the character. -/
theorem joinSlash_consHead (c : Char) (S : List (List Char)) (h : S ≠ []) :
    joinSlash (consHead c S) = c :: joinSlash S := by
  cases S with
  | nil => exact absurd rfl h
  | cons s rest =>
    cases rest with
    | nil => rfl
    | cons t ts => rfl

/-- Joining a concatenation of two nonempty piece lists joins each part
with a separator in between. -/
theorem joinSlash_append (A B : List (List Char)) (hA : A ≠ []) (hB : B ≠ []) :
    joinSlash (A ++ B) = joinSlash A ++ '/' :: joinSlash B := by
  induction A with
  | nil => exact absurd rfl hA
  | cons a A ih =>
    cases A with
    | nil =>
      rw [List.singleton_append, joinSlash_cons a B hB]
      rfl
    | cons b A2 =>
      rw [List.cons_append, joinSlash_cons a ((b :: A2) ++ B) (by simp),
        ih (by simp), joinSlash_cons a (b :: A2) (by simp)]
      simp

/-- Joining the pieces of a split reproduces the original characters. -/
theorem joinSlash_splitSlash (cs : List Char) : joinSlash (splitSlash cs) = cs := by
  induction cs with
  | nil => rfl
  | cons c cs ih =>
    by_cases h : c = '/'
    · rw [splitSlash, if_pos h, joinSlash_cons [] (splitSlash cs) (splitSlash_ne_nil cs)]
      simp [h, ih]
    · rw [splitSlash, if_neg h, joinSlash_consHead c (splitSlash cs) (splitSlash_ne_nil cs), ih]

/-- No piece of a split contains a separator. -/
theorem mem_splitSlash_no_slash (cs : List Char) (s : List Char) (hs : s ∈ splitSlash cs) :
    '/' ∉ s := by
  induction cs generalizing s with
  | nil =>
    simp [splitSlash] at hs
    simp [hs]
  | cons c cs ih =>
    by_cases h : c = '/'
    · rw [splitSlash, if_pos h] at hs
      rcases List.mem_cons.mp hs with h1 | h1
      · simp [h1]
      · exact ih s h1
    · rw [splitSlash, if_neg h] at hs
      cases hsp : splitSlash cs with
      | nil => exact absurd hsp (splitSlash_ne_nil cs)
      | cons t rest =>
        rw [hsp] at hs
        simp only [consHead] at hs
        rcases List.mem_cons.mp hs with h1 | h1
        · subst h1
          intro hmem
          rcases List.mem_cons.mp hmem with h2 | h2
          · exact h h2.symm
          · exact ih t (by rw [hsp]; exact List.mem_cons_self t rest) h2
        · exact ih s (by rw [hsp]; exact List.mem_cons_of_mem t h1)

/-- A separator-free character list splits into itself as the single
piece. -/
theorem splitSlash_no_slash (s : List Char) (h : '/' ∉ s) : splitSlash s = [s] := by
  induction s with
  | nil => rfl
  | cons c cs ih =>
    have hc : c ≠ '/' := fun hc => h (by rw [hc]; exact List.mem_cons_self _ _)
    have hcs : '/' ∉ cs := fun hm => h (List.mem_cons_of_mem c hm)
    rw [splitSlash, if_neg hc, ih hcs]
    rfl

/-- Splitting a join concatenates the splits of the pieces. -/
theorem splitSlash_joinSlash (L : List (List Char)) (h : L ≠ []) :
    splitSlash (joinSlash L) = L.flatMap splitSlash := by
  induction L with
  | nil => exact absurd rfl h
  | cons s rest ih =>
    cases rest with
    | nil => simp [joinSlash]
    | cons t ts =>
      rw [joinSlash_cons s (t :: ts) (by simp), splitSlash_append_slash,
        ih (by simp)]
      rfl

/-- Unifying separators twice is the same as once. -/
theorem slashify_slashify (cs : List Char) : slashify (slashify cs) = slashify cs := by
  induction cs with
  | nil => rfl
  | cons c cs ih =>
    by_cases h : c = '\\'
    · simp [slashify, h] at ih ⊢
      exact ih
    · simp [slashify, h] at ih ⊢
      exact ih

/-- Unifying separators changes nothing in a backslash-free list. -/
theorem slashify_eq_self (cs : List Char) (h : '\\' ∉ cs) : slashify cs = cs := by
  induction cs with
  | nil => rfl
  | cons c cs ih =>
    have hc : c ≠ '\\' := fun hc => h (by rw [hc]; exact List.mem_cons_self _ _)
    have hcs : '\\' ∉ cs := fun hm => h (List.mem_cons_of_mem c hm)
    simp [slashify, hc] at ih ⊢
    exact ih hcs

/-- A separator-unified list contains no backslash. -/
theorem no_backslash_slashify (cs : List Char) : '\\' ∉ slashify cs := by
  induction cs with
  | nil => simp [slashify]
  | cons c cs ih =>
    by_cases h : c = '\\' <;> intro hmem
    · rw [slashify] at hmem
      simp only [List.map_cons, h, if_pos rfl] at hmem
      rcases List.mem_cons.mp hmem with h1 | h1
      · exact absurd h1.symm (by decide)
      · exact ih h1
    · rw [slashify] at hmem
      simp only [List.map_cons, if_neg h] at hmem
      rcases List.mem_cons.mp hmem with h1 | h1
      · exact h h1.symm
      · exact ih h1

/-- Unifying separators distributes over joining (a forward slash is
kept). -/
theorem slashify_joinSlash (L : List (List Char)) :
    slashify (joinSlash L) = joinSlash (L.map slashify) := by
  induction L with
  | nil => rfl
  | cons s rest ih =>
    cases rest with
    | nil => rfl
    | cons t ts =>
      rw [joinSlash_cons s (t :: ts) (by simp), List.map_cons,
        joinSlash_cons (slashify s) ((t :: ts).map slashify) (by simp)]
      rw [show slashify (s ++ '/' :: joinSlash (t :: ts)) =
          slashify s ++ '/' :: slashify (joinSlash (t :: ts)) from by simp [slashify]]
      rw [ih]

/-- Dot-segment resolution leaves a list of plain segments unchanged
(stated with a general accumulator for the induction). -/
theorem foldl_normStep_plain (segs : List (List Char)) (acc : List (List Char))
    (h : ∀ s ∈ segs, PlainSeg s) : segs.foldl normStep acc = acc ++ segs := by
  induction segs generalizing acc with
  | nil => simp
  | cons s rest ih =>
    have hs := h s (List.mem_cons_self s rest)
    have hstep : normStep acc s = acc ++ [s] := by
      simp [normStep, hs.1, hs.2.1, hs.2.2]
    rw [List.foldl_cons, hstep, ih (acc ++ [s]) (fun t ht => h t (List.mem_cons_of_mem s ht))]
    simp

/-- Dot-segment resolution of an all-plain segment list is the
identity. -/
theorem normSegs_all_plain (segs : List (List Char)) (h : ∀ s ∈ segs, PlainSeg s) :
    normSegs segs = segs := by
  rw [normSegs, foldl_normStep_plain segs [] h]
  rfl

/-- A leading empty segment is dropped by dot-segment resolution. -/
theorem normSegs_cons_empty (segs : List (List Char)) :
    normSegs ([] :: segs) = normSegs segs := by
  rw [normSegs, normSegs, List.foldl_cons]
  rfl

/-- A trailing empty segment is dropped by dot-segment resolution. -/
theorem normSegs_append_empty (segs : List (List Char)) :
    normSegs (segs ++ [[]]) = normSegs segs := by
  rw [normSegs, normSegs, List.foldl_append]
  rfl

/-- The join of pieces whose last piece is nonempty is nonempty. -/
theorem joinSlash_ne_nil (rest : List (List Char)) (s : List Char)
    (hlast : rest.getLast? = some s) (hne : s ≠ []) : joinSlash rest ≠ [] := by
  induction rest with
  | nil => cases hlast
  | cons a tl ih =>
    cases tl with
    | nil =>
      simp [List.getLast?] at hlast
      subst hlast
      simpa [joinSlash] using hne
    | cons b ts =>
      rw [joinSlash_cons a (b :: ts) (by simp)]
      simp

/-- The join of pieces whose last piece is nonempty and separator-free
does not end in a separator. -/
theorem getLast?_joinSlash_ne_slash (segs : List (List Char)) (s : List Char)
    (hlast : segs.getLast? = some s) (hne : s ≠ []) (hslash : '/' ∉ s) :
    (joinSlash segs).getLast? ≠ some '/' := by
  induction segs with
  | nil => cases hlast
  | cons a tl ih =>
    cases tl with
    | nil =>
      simp [List.getLast?] at hlast
      subst hlast
      simp only [joinSlash]
      intro hcon
      rcases List.mem_getLast?_eq_getLast (Option.mem_def.mpr hcon) with ⟨hne2, heq⟩
      exact hslash (by rw [heq]; exact List.getLast_mem hne2)
    | cons b ts =>
      have htl : (b :: ts).getLast? = some s := by
        rw [← hlast]
        cases ts <;> simp [List.getLast?_cons_cons]
      rw [joinSlash_cons a (b :: ts) (by simp),
        List.getLast?_append_of_ne_nil a (by simp)]
      have hjoin : joinSlash (b :: ts) ≠ [] := joinSlash_ne_nil (b :: ts) s htl hne
      rw [show ('/' :: joinSlash (b :: ts)).getLast? = (joinSlash (b :: ts)).getLast? from by
        cases hj : joinSlash (b :: ts) with
        | nil => exact absurd hj hjoin
        | cons x xs => simp [List.getLast?_cons_cons]]
      exact ih htl

/-- The trailing-slash loop does nothing on a list that does not end in
a separator. -/
theorem stripTrail_of_no_trailing (cs : List Char) (h : cs.getLast? ≠ some '/') :
    stripTrail cs = cs := by
  rw [stripTrail]
  cases hl : cs.length with
  | zero => rfl
  | succ n =>
    rw [stripTrailLoop, if_neg]
    intro hcon
    exact h hcon.2.1

/-- The last element of a cons is the last element of the nonempty
tail. -/
theorem getLast?_cons_ne_nil (a : Char) (xs : List Char) (h : xs ≠ []) :
    (a :: xs).getLast? = xs.getLast? := by
  cases xs with
  | nil => exact absurd rfl h
  | cons b t => simp [List.getLast?_cons_cons]

/-- A string is empty exactly when its character list is. -/
theorem string_eq_empty_iff (p : String) : p = "" ↔ p.data = [] := by
  cases p
  simp [String.ext_iff]

/-- If every separator-unified piece of a list is plain, so is every
raw (slash-separated) piece: an empty, `.` or `..` piece would survive
separator unification as a full piece. -/
theorem plain_of_slashify_plain (t : List Char)
    (h : ∀ u ∈ splitSlash (slashify t), PlainSeg u) :
    ∀ s ∈ splitSlash t, PlainSeg s := by
  intro s hs
  have hkey : splitSlash (slashify t) =
      (splitSlash t).flatMap (fun u => splitSlash (slashify u)) := by
    conv_lhs => rw [← joinSlash_splitSlash t]
    rw [slashify_joinSlash, splitSlash_joinSlash _ (by
      intro h0
      exact splitSlash_ne_nil t (List.map_eq_nil_iff.mp h0)), List.flatMap_map]
  have hpieces : ∀ u ∈ splitSlash (slashify s), PlainSeg u := by
    intro u hu
    refine h u ?_
    rw [hkey]
    exact List.mem_flatMap.mpr ⟨s, hs, hu⟩
  refine ⟨?_, ?_, ?_⟩
  · intro h0
    exact (hpieces [] (by rw [h0]; decide)).1 rfl
  · intro h0
    exact (hpieces ['.'] (by rw [h0]; decide)).2.1 rfl
  · intro h0
    exact (hpieces ['.', '.'] (by rw [h0]; decide)).2.2 rfl

/-- A separator-unified list whose pieces are all plain is nonempty and
does not end in a separator. -/
theorem slashify_plain_no_trailing (x : List Char) (hx : x ≠ [])
    (h : ∀ u ∈ splitSlash (slashify x), PlainSeg u) :
    (slashify x).getLast? ≠ some '/' ∧ slashify x ≠ [] := by
  have hne : slashify x ≠ [] := by
    intro h0
    exact hx (List.map_eq_nil_iff.mp h0)
  have hjoin : joinSlash (splitSlash (slashify x)) = slashify x :=
    joinSlash_splitSlash (slashify x)
  have hsegs_ne : splitSlash (slashify x) ≠ [] := splitSlash_ne_nil (slashify x)
  have hlast? : (splitSlash (slashify x)).getLast? =
      some ((splitSlash (slashify x)).getLast hsegs_ne) :=
    List.getLast?_eq_getLast _ hsegs_ne
  have hlmem : (splitSlash (slashify x)).getLast hsegs_ne ∈ splitSlash (slashify x) :=
    List.getLast_mem hsegs_ne
  have hlplain := h _ hlmem
  have hlslash := mem_splitSlash_no_slash (slashify x) _ hlmem
  refine ⟨?_, hne⟩
  rw [← hjoin]
  exact getLast?_joinSlash_ne_slash _ _ hlast? hlplain.1 hlslash

/-- `path.resolve` on an absolute path whose raw segments are all plain
is the identity. -/
theorem resolveChars_abs_plain (cwd t : List Char)
    (hplain : ∀ s ∈ splitSlash t, PlainSeg s) :
    resolveChars cwd ('/' :: t) = '/' :: t := by
  have habs : ('/' :: t).head? = some '/' := rfl
  simp only [resolveChars, habs, if_pos]
  rw [splitSlash, if_pos rfl, normSegs_cons_empty, normSegs_all_plain _ hplain,
    joinSlash_splitSlash]

/-- `path.resolve` of an absolute path resolves its dot segments in
place. -/
theorem resolveChars_eq_abs (cwd p : List Char) (h : p.head? = some '/') :
    resolveChars cwd p = '/' :: joinSlash (normSegs (splitSlash p)) := by
  simp [resolveChars, h]

/-- `path.resolve` of a relative path appends it to the working
directory before resolving dot segments. -/
theorem resolveChars_eq_rel (cwd p : List Char) (h : ¬ p.head? = some '/') :
    resolveChars cwd p = '/' :: joinSlash (normSegs (splitSlash (cwd ++ '/' :: p))) := by
  simp [resolveChars, h]

/-- Normal form of `normalizePath` on a good working directory and a
good path: the result is the separator-unified input, absolutized over
the working directory when relative — dot-segment resolution and
trailing-slash stripping have nothing to do on good inputs. -/
theorem normalizePath_norm_form (cwd p : String) (hc : GoodCwd cwd) (hp : GoodPath p) :
    normalizePath cwd p =
      if p.data.head? = some '/' then String.mk (slashify p.data)
      else if cwd = "/" then String.mk ('/' :: slashify p.data)
      else String.mk (cwd.data ++ '/' :: slashify p.data) := by
  obtain ⟨hpne, hsegs⟩ := hp
  have hpd : p.data ≠ [] := fun h0 => hpne ((string_eq_empty_iff p).mpr h0)
  rw [normalizePath, if_neg hpne]
  by_cases habs : p.data.head? = some '/'
  · obtain ⟨t, ht⟩ : ∃ t, p.data = '/' :: t := by
      cases hd : p.data with
      | nil => exact absurd hd hpd
      | cons c cs =>
        rw [hd] at habs
        simp only [List.head?_cons, Option.some.injEq] at habs
        exact ⟨cs, by rw [habs]⟩
    have hsl : slashify p.data = '/' :: slashify t := by
      rw [ht]
      rfl
    have hsegs' : ∀ u ∈ splitSlash (slashify t), PlainSeg u := by
      intro u hu
      apply hsegs
      rw [pathGoodSegs, if_pos habs, hsl, splitSlash, if_pos rfl]
      simpa using hu
    have hplain := plain_of_slashify_plain t hsegs'
    have ht_ne : t ≠ [] := by
      intro h0
      subst h0
      exact (hsegs' [] (by decide)).1 rfl
    rw [ht, resolveChars_abs_plain cwd.data t hplain, ← ht]
    have hnt := slashify_plain_no_trailing t ht_ne hsegs'
    have hlast : (slashify p.data).getLast? ≠ some '/' := by
      rw [hsl, getLast?_cons_ne_nil '/' (slashify t) hnt.2]
      exact hnt.1
    rw [stripTrail_of_no_trailing _ hlast, if_pos habs]
  · have hsegs'' : ∀ u ∈ splitSlash (slashify p.data), PlainSeg u := by
      intro u hu
      apply hsegs
      rw [pathGoodSegs, if_neg habs]
      exact hu
    have hplain := plain_of_slashify_plain p.data hsegs''
    have hnt := slashify_plain_no_trailing p.data hpd hsegs''
    rw [resolveChars_eq_rel cwd.data p.data habs]
    rcases hc with ⟨hcbs, hcroot | ⟨hchead, _hctail_ne, hctail⟩⟩
    · subst hcroot
      have hfull : ("/" : String).data ++ '/' :: p.data = '/' :: '/' :: p.data := rfl
      rw [hfull, splitSlash, if_pos rfl, splitSlash, if_pos rfl,
        normSegs_cons_empty, normSegs_cons_empty, normSegs_all_plain _ hplain,
        joinSlash_splitSlash]
      have hsl2 : slashify ('/' :: p.data) = '/' :: slashify p.data := rfl
      rw [hsl2]
      have hlast : ('/' :: slashify p.data).getLast? ≠ some '/' := by
        rw [getLast?_cons_ne_nil '/' _ hnt.2]
        exact hnt.1
      rw [stripTrail_of_no_trailing _ hlast, if_neg habs, if_pos rfl]
    · have hcne : cwd ≠ "/" := by
        intro h0
        subst h0
        have hmem : ([] : List Char) ∈ (splitSlash ("/" : String).data).tail := by decide
        exact (hctail [] hmem).1 rfl
      obtain ⟨w, hw⟩ : ∃ w, cwd.data = '/' :: w := by
        cases hd : cwd.data with
        | nil => rw [hd] at hchead; cases hchead
        | cons c cs =>
          rw [hd] at hchead
          simp only [List.head?_cons, Option.some.injEq] at hchead
          exact ⟨cs, by rw [hchead]⟩
      have hbw : '\\' ∉ w := fun hm => hcbs (by rw [hw]; exact List.mem_cons_of_mem _ hm)
      have hcsegs : (splitSlash cwd.data).tail = splitSlash w := by
        rw [hw, splitSlash, if_pos rfl]
        simp
      have hwplain : ∀ s ∈ splitSlash w, PlainSeg s := by
        intro s hs
        apply hctail
        rw [hcsegs]
        exact hs
      have hallplain : ∀ s ∈ splitSlash w ++ splitSlash p.data, PlainSeg s := by
        intro s hs
        rcases List.mem_append.mp hs with h1 | h1
        · exact hwplain s h1
        · exact hplain s h1
      have hfull : cwd.data ++ '/' :: p.data = '/' :: (w ++ '/' :: p.data) := by
        rw [hw]
        rfl
      rw [hfull, splitSlash, if_pos rfl, splitSlash_append_slash,
        normSegs_cons_empty, normSegs_all_plain _ hallplain,
        joinSlash_append (splitSlash w) (splitSlash p.data) (splitSlash_ne_nil w)
          (splitSlash_ne_nil p.data),
        joinSlash_splitSlash, joinSlash_splitSlash]
      have hslfull : slashify ('/' :: (w ++ '/' :: p.data)) =
          '/' :: (w ++ '/' :: slashify p.data) := by
        have hstep : slashify ('/' :: (w ++ '/' :: p.data)) =
            '/' :: (slashify w ++ '/' :: slashify p.data) := by
          simp [slashify]
        rw [hstep, slashify_eq_self w hbw]
      rw [hslfull]
      have hlast : ('/' :: (w ++ '/' :: slashify p.data)).getLast? ≠ some '/' := by
        rw [getLast?_cons_ne_nil '/' _ (by simp),
          List.getLast?_append_of_ne_nil w (by simp),
          getLast?_cons_ne_nil '/' _ hnt.2]
        exact hnt.1
      rw [stripTrail_of_no_trailing _ hlast, if_neg habs, if_neg hcne, hw]
      rfl

/-- A good absolute backslash-free path is a fixed point of
`normalizePath`. -/
theorem normalizePath_fixed_point (cwd q : String) (hc : GoodCwd cwd)
    (hq : GoodPath q) (hhead : q.data.head? = some '/') (hbs : '\\' ∉ q.data) :
    normalizePath cwd q = q := by
  rw [normalizePath_norm_form cwd q hc hq, if_pos hhead, slashify_eq_self _ hbs]

/-- `normalizePath` is idempotent on a good working directory and a
good path. -/
theorem normalizePath_idem (cwd p : String) (hc : GoodCwd cwd) (hp : GoodPath p) :
    normalizePath cwd (normalizePath cwd p) = normalizePath cwd p := by
  have hpd : p.data ≠ [] := fun h0 => hp.1 ((string_eq_empty_iff p).mpr h0)
  have hslne : slashify p.data ≠ [] := fun h0 => hpd (List.map_eq_nil_iff.mp h0)
  rw [normalizePath_norm_form cwd p hc hp]
  by_cases habs : p.data.head? = some '/'
  · rw [if_pos habs]
    have hqhead : (String.mk (slashify p.data)).data.head? = some '/' := by
      show (slashify p.data).head? = some '/'
      rw [slashify, List.head?_map, habs]
      rfl
    apply normalizePath_fixed_point cwd _ hc ?_ hqhead (no_backslash_slashify p.data)
    constructor
    · intro h0
      exact hslne ((string_eq_empty_iff _).mp h0)
    · intro s hs
      apply hp.2
      rw [pathGoodSegs, if_pos habs]
      rw [pathGoodSegs, hqhead, if_pos rfl,
        show (String.mk (slashify p.data)).data = slashify p.data from rfl,
        slashify_slashify] at hs
      exact hs
  · rw [if_neg habs]
    by_cases hroot : cwd = "/"
    · rw [if_pos hroot]
      have hqhead : (String.mk ('/' :: slashify p.data)).data.head? = some '/' := rfl
      apply normalizePath_fixed_point cwd _ hc ?_ hqhead ?_
      · constructor
        · intro h0
          exact absurd ((string_eq_empty_iff _).mp h0) (by simp)
        · intro s hs
          apply hp.2
          rw [pathGoodSegs, if_neg habs]
          rw [pathGoodSegs, hqhead, if_pos rfl,
            show (String.mk ('/' :: slashify p.data)).data = '/' :: slashify p.data from rfl,
            show slashify ('/' :: slashify p.data) = '/' :: slashify (slashify p.data) from rfl,
            slashify_slashify, splitSlash, if_pos rfl] at hs
          simpa using hs
      · intro hmem
        rcases List.mem_cons.mp hmem with h1 | h1
        · exact absurd h1.symm (by decide)
        · exact no_backslash_slashify p.data h1
    · rw [if_neg hroot]
      have hc2 := hc
      rcases hc2 with ⟨hcbs, hcroot | ⟨hchead, _, hctail⟩⟩
      · exact absurd hcroot hroot
      obtain ⟨w, hw⟩ : ∃ w, cwd.data = '/' :: w := by
        cases hd : cwd.data with
        | nil => rw [hd] at hchead; cases hchead
        | cons c cs =>
          rw [hd] at hchead
          simp only [List.head?_cons, Option.some.injEq] at hchead
          exact ⟨cs, by rw [hchead]⟩
      have hbw : '\\' ∉ w := fun hm => hcbs (by rw [hw]; exact List.mem_cons_of_mem _ hm)
      have hqdata : (String.mk (cwd.data ++ '/' :: slashify p.data)).data =
          '/' :: (w ++ '/' :: slashify p.data) := by
        show cwd.data ++ '/' :: slashify p.data = '/' :: (w ++ '/' :: slashify p.data)
        rw [hw]
        rfl
      have hqhead : (String.mk (cwd.data ++ '/' :: slashify p.data)).data.head? = some '/' := by
        rw [hqdata]
        rfl
      have hqbs : '\\' ∉ (String.mk (cwd.data ++ '/' :: slashify p.data)).data := by
        rw [hqdata]
        intro hmem
        rcases List.mem_cons.mp hmem with h1 | h1
        · exact absurd h1.symm (by decide)
        · rcases List.mem_append.mp h1 with h2 | h2
          · exact hbw h2
          · rcases List.mem_cons.mp h2 with h3 | h3
            · exact absurd h3.symm (by decide)
            · exact no_backslash_slashify p.data h3
      apply normalizePath_fixed_point cwd _ hc ?_ hqhead hqbs
      constructor
      · intro h0
        have := (string_eq_empty_iff _).mp h0
        rw [hqdata] at this
        cases this
      · intro s hs
        rw [pathGoodSegs, hqhead, if_pos rfl, hqdata,
          slashify_eq_self _ (by rw [← hqdata]; exact hqbs),
          splitSlash, if_pos rfl, List.tail_cons, splitSlash_append_slash] at hs
        rcases List.mem_append.mp hs with h1 | h1
        · apply hctail
          rw [hw, splitSlash, if_pos rfl, List.tail_cons]
          exact h1
        · apply hp.2
          rw [pathGoodSegs, if_neg habs]
          exact h1

/-- Two paths that agree after separator unification and agree on
absoluteness normalize identically (on a good working directory, with
the first path good — the second is then good as well). -/
theorem normalizePath_sep_invariant (cwd p q : String) (hc : GoodCwd cwd) (hp : GoodPath p)
    (hsl : slashify p.data = slashify q.data)
    (hhead : p.data.head? = some '/' ↔ q.data.head? = some '/') :
    normalizePath cwd p = normalizePath cwd q := by
  have hpd : p.data ≠ [] := fun h0 => hp.1 ((string_eq_empty_iff p).mpr h0)
  have hqd : q.data ≠ [] := by
    intro h0
    apply hpd
    apply List.map_eq_nil_iff.mp
    rw [show slashify p.data = List.map (fun c => if c = '\\' then '/' else c) p.data from rfl] at hsl
    rw [hsl, h0]
    rfl
  have hq : GoodPath q := by
    refine ⟨fun h0 => hqd ((string_eq_empty_iff q).mp h0), ?_⟩
    intro s hs
    apply hp.2
    rw [pathGoodSegs] at hs ⊢
    by_cases habs : p.data.head? = some '/'
    · rw [if_pos habs]
      rw [if_pos (hhead.mp habs), ← hsl] at hs
      exact hs
    · rw [if_neg habs]
      rw [if_neg (fun hx => habs (hhead.mpr hx)), ← hsl] at hs
      exact hs
  rw [normalizePath_norm_form cwd p hc hp, normalizePath_norm_form cwd q hc hq]
  by_cases habs : p.data.head? = some '/'
  · rw [if_pos habs, if_pos (hhead.mp habs), hsl]
  · rw [if_neg habs, if_neg (fun hx => habs (hhead.mpr hx)), hsl]

/-- A trailing forward slash never changes the result of
`normalizePath` (for any nonempty input on any working directory):
`path.resolve` already drops the empty final segment. -/
theorem normalizePath_trailing_slash (cwd p : String) (h : p ≠ "") :
    normalizePath cwd (p ++ "/") = normalizePath cwd p := by
  have hpd : p.data ≠ [] := fun h0 => h ((string_eq_empty_iff p).mpr h0)
  have hdata : (p ++ "/").data = p.data ++ ['/'] := rfl
  have hne : p ++ "/" ≠ "" := by
    intro h0
    have h1 := (string_eq_empty_iff _).mp h0
    rw [hdata] at h1
    simp at h1
  rw [normalizePath, if_neg hne, normalizePath, if_neg h]
  have hres : resolveChars cwd.data (p ++ "/").data = resolveChars cwd.data p.data := by
    rw [hdata]
    have hhead : (p.data ++ ['/']).head? = p.data.head? :=
      List.head?_append_of_ne_nil _ hpd
    by_cases habs : p.data.head? = some '/'
    · rw [resolveChars_eq_abs _ _ (by rw [hhead]; exact habs),
        resolveChars_eq_abs _ _ habs,
        show p.data ++ ['/'] = p.data ++ '/' :: ([] : List Char) from rfl,
        splitSlash_append_slash,
        show splitSlash ([] : List Char) = [[]] from rfl, normSegs_append_empty]
    · rw [resolveChars_eq_rel _ _ (by rw [hhead]; exact habs),
        resolveChars_eq_rel _ _ habs]
      have hassoc : cwd.data ++ '/' :: (p.data ++ ['/']) =
          (cwd.data ++ '/' :: p.data) ++ '/' :: ([] : List Char) := by
        simp
      rw [hassoc, splitSlash_append_slash,
        show splitSlash ([] : List Char) = [[]] from rfl, normSegs_append_empty]
  rw [hres]

/-! ## Claim theorems -/

/-- C9: `truncateContent` returns content of length at most `maxLength`
unchanged; longer content is cut to its first `maxLength` characters
with the literal suffix `...` appended, so the truncated result has
length `maxLength + 3`, which exceeds `maxLength`. -/
theorem truncateContent_spec (content : String) (maxLength : Nat) :
    (content.length ≤ maxLength → truncateContent content maxLength = content) ∧
    (maxLength < content.length →
      truncateContent content maxLength = String.mk (content.data.take maxLength) ++ "..." ∧
      (truncateContent content maxLength).length = maxLength + 3 ∧
      maxLength < (truncateContent content maxLength).length) := by
  constructor
  · intro h
    simp [truncateContent, h]
  · intro h
    have hnot : ¬ content.length ≤ maxLength := not_le.mpr h
    have heq : truncateContent content maxLength =
        String.mk (content.data.take maxLength) ++ "..." := by
      simp [truncateContent, hnot]
    have hlen : (truncateContent content maxLength).length = maxLength + 3 := by
      rw [heq, String.length_append]
      have h1 : (String.mk (content.data.take maxLength)).length = maxLength := by
        have : (content.data.take maxLength).length = maxLength := by
          rw [List.length_take]
          exact Nat.min_eq_left (Nat.le_of_lt h)
        simpa using this
      rw [h1, show ("..." : String).length = 3 from rfl]
    exact ⟨heq, hlen, by rw [hlen]; omega⟩

/-- Witness for C9 at concrete inputs: `hello` is returned unchanged
for limit 5 and truncated to `hel...` (of length 6 > 3) for limit 3. -/
theorem truncateContent_spec_witness :
    truncateContent "hello" 5 = "hello" ∧
    truncateContent "hello" 3 = "hel..." ∧
    (truncateContent "hello" 3).length = 6 := by
  refine ⟨(truncateContent_spec "hello" 5).1 (by decide), ?_, ?_⟩
  · have h := ((truncateContent_spec "hello" 3).2 (by decide)).1
    rw [h]; decide
  · exact ((truncateContent_spec "hello" 3).2 (by decide)).2.1

/-- C10: for the empty string, `normalizePath` returns the input
unchanged by the falsy-input guard, without resolving it to an absolute
path (the result does not start with a separator), for every working
directory. -/
theorem normalizePath_empty_string (cwd : String) :
    normalizePath cwd "" = "" ∧ (normalizePath cwd "").data.head? ≠ some '/' := by
  constructor
  · simp [normalizePath]
  · simp [normalizePath]

/-- C2: when the snapshot record of the (normalized) identity has
status `indexing` and the path passes the filesystem checks, `runIndex`
fails with the concurrency error (`already being indexed`) and returns
the snapshot manager state and pipeline context completely unchanged —
in particular the persisted record of the identity is untouched. -/
theorem runIndex_concurrency_guard (pathArg : String) (options : IndexOptions)
    (w : RunWorld) (mgr : SnapshotManagerState) (ctx : ContextState)
    (absolutePath : String)
    (hpath : absolutePath = ensureAbsolutePath w.cwd pathArg)
    (hex : w.fsExists absolutePath = true)
    (hdir : w.isDirectory absolutePath = true)
    (hst : getCodebaseStatus mgr absolutePath = .indexing) :
    runIndex pathArg options w mgr ctx =
      (mgr, ctx, .error (.alreadyIndexing absolutePath)) := by
  subst hpath
  unfold runIndex
  simp [hex, hdir, hst]

/-- Witness for C2: a concrete world whose snapshot has `/repo` in
status `indexing`; the second indexing run fails with the concurrency
error and returns exactly the input states. -/
theorem runIndex_concurrency_guard_witness :
    runIndex "/repo" {} (RunWorld.mk "/w" (fun _ => true) (fun _ => true) (fun _ => false) true
        (.success [] (IndexStats.mk 0 0 "completed")))
      (loadCodebaseSnapshot [("/repo", IndexRecord.mk .indexing 37 none none)]) {} =
      ((loadCodebaseSnapshot [("/repo", IndexRecord.mk .indexing 37 none none)]), {},
        .error (.alreadyIndexing "/repo")) := by
  exact runIndex_concurrency_guard "/repo" {} _ _ {} "/repo" (by decide) rfl rfl (by decide)

/-- C3: the pre-flight checks of `runIndex` run in source order — path
existence, directory check, `indexing` status, existing index without
force, collection limit — each later check being reached only when the
earlier ones pass; every pre-flight failure leaves the snapshot manager
state (memory, disk and save history) and the pipeline context exactly
as they were; and when all checks pass the very first persisted
snapshot of the run carries the record of the identity transitioned to
`indexing` with progress 0. -/
theorem runIndex_preflight_order_and_frame (pathArg : String) (options : IndexOptions)
    (w : RunWorld) (mgr : SnapshotManagerState) (ctx : ContextState)
    (absolutePath : String)
    (hpath : absolutePath = ensureAbsolutePath w.cwd pathArg) :
    (w.fsExists absolutePath = false →
      runIndex pathArg options w mgr ctx = (mgr, ctx, .error (.pathNotFound absolutePath))) ∧
    (w.fsExists absolutePath = true → w.isDirectory absolutePath = false →
      runIndex pathArg options w mgr ctx = (mgr, ctx, .error (.notDirectory absolutePath))) ∧
    (w.fsExists absolutePath = true → w.isDirectory absolutePath = true →
      getCodebaseStatus mgr absolutePath = .indexing →
      runIndex pathArg options w mgr ctx = (mgr, ctx, .error (.alreadyIndexing absolutePath))) ∧
    (w.fsExists absolutePath = true → w.isDirectory absolutePath = true →
      getCodebaseStatus mgr absolutePath ≠ .indexing →
      (w.hasIndex absolutePath && !options.force) = true →
      runIndex pathArg options w mgr ctx = (mgr, ctx, .error (.alreadyIndexed absolutePath))) ∧
    (w.fsExists absolutePath = true → w.isDirectory absolutePath = true →
      getCodebaseStatus mgr absolutePath ≠ .indexing →
      (w.hasIndex absolutePath && !options.force) = false →
      w.checkCollectionLimit = false →
      runIndex pathArg options w mgr ctx = (mgr, ctx, .error .collectionLimit)) ∧
    (w.fsExists absolutePath = true → w.isDirectory absolutePath = true →
      getCodebaseStatus mgr absolutePath ≠ .indexing →
      (w.hasIndex absolutePath && !options.force) = false →
      w.checkCollectionLimit = true →
      (runIndex pathArg options w mgr ctx).1.saves =
        mgr.saves ++ [setRecord mgr.memory absolutePath
            (IndexRecord.mk .indexing 0 none none),
          (runIndex pathArg options w mgr ctx).1.memory]) := by
  subst hpath
  refine ⟨?_, ?_, ?_, ?_, ?_, ?_⟩
  · intro h1
    unfold runIndex
    simp [h1]
  · intro h1 h2
    unfold runIndex
    simp [h1, h2]
  · intro h1 h2 h3
    unfold runIndex
    simp [h1, h2, h3]
  · intro h1 h2 h3 h4
    unfold runIndex
    simp [h1, h2, h3, h4]
  · intro h1 h2 h3 h4 h5
    unfold runIndex
    simp [h1, h2, h3, h4, h5]
  · intro h1 h2 h3 h4 h5
    unfold runIndex
    cases hp : w.pipeline with
    | success events stats =>
      simp [h1, h2, h3, h4, h5, hp, saveCodebaseSnapshot, setCodebaseIndexing,
        setCodebaseIndexed]
    | failure events error =>
      simp [h1, h2, h3, h4, h5, hp, saveCodebaseSnapshot, setCodebaseIndexing,
        setCodebaseIndexFailed]

/-- Witness for C3, exercising every branch at concrete inputs: a
missing path, a non-directory path, a record in `indexing` status, an
existing index without force, an exhausted collection limit, and a full
pass whose first persisted snapshot is the `indexing` record with
progress 0. -/
theorem runIndex_preflight_order_and_frame_witness :
    runIndex "/repo" {} (RunWorld.mk "/w" (fun _ => false) (fun _ => true) (fun _ => false) true
        (.success [] (IndexStats.mk 0 0 "completed"))) (loadCodebaseSnapshot []) {} =
      ((loadCodebaseSnapshot []), {}, .error (.pathNotFound "/repo")) ∧
    runIndex "/repo" {} (RunWorld.mk "/w" (fun _ => true) (fun _ => false) (fun _ => false) true
        (.success [] (IndexStats.mk 0 0 "completed"))) (loadCodebaseSnapshot []) {} =
      ((loadCodebaseSnapshot []), {}, .error (.notDirectory "/repo")) ∧
    runIndex "/repo" {} (RunWorld.mk "/w" (fun _ => true) (fun _ => true) (fun _ => false) true
        (.success [] (IndexStats.mk 0 0 "completed")))
      (loadCodebaseSnapshot [("/repo", IndexRecord.mk .indexing 5 none none)]) {} =
      ((loadCodebaseSnapshot [("/repo", IndexRecord.mk .indexing 5 none none)]), {},
        .error (.alreadyIndexing "/repo")) ∧
    runIndex "/repo" {} (RunWorld.mk "/w" (fun _ => true) (fun _ => true) (fun _ => true) true
        (.success [] (IndexStats.mk 0 0 "completed"))) (loadCodebaseSnapshot []) {} =
      ((loadCodebaseSnapshot []), {}, .error (.alreadyIndexed "/repo")) ∧
    runIndex "/repo" {} (RunWorld.mk "/w" (fun _ => true) (fun _ => true) (fun _ => false) false
        (.success [] (IndexStats.mk 0 0 "completed"))) (loadCodebaseSnapshot []) {} =
      ((loadCodebaseSnapshot []), {}, .error .collectionLimit) ∧
    (runIndex "/repo" {} (RunWorld.mk "/w" (fun _ => true) (fun _ => true) (fun _ => false) true
        (.success [] (IndexStats.mk 0 0 "completed"))) (loadCodebaseSnapshot []) {}).1.saves =
      [setRecord [] "/repo" (IndexRecord.mk .indexing 0 none none),
        (runIndex "/repo" {} (RunWorld.mk "/w" (fun _ => true) (fun _ => true) (fun _ => false) true
          (.success [] (IndexStats.mk 0 0 "completed"))) (loadCodebaseSnapshot []) {}).1.memory] := by
  refine ⟨?_, ?_, ?_, ?_, ?_, ?_⟩
  · exact (runIndex_preflight_order_and_frame "/repo" {} _ _ {} "/repo" (by decide)).1 rfl
  · exact (runIndex_preflight_order_and_frame "/repo" {} _ _ {} "/repo"
      (by decide)).2.1 rfl rfl
  · exact (runIndex_preflight_order_and_frame "/repo" {} _ _ {} "/repo"
      (by decide)).2.2.1 rfl rfl (by decide)
  · exact (runIndex_preflight_order_and_frame "/repo" {} _ _ {} "/repo"
      (by decide)).2.2.2.1 rfl rfl (by decide) (by decide)
  · exact (runIndex_preflight_order_and_frame "/repo" {} _ _ {} "/repo"
      (by decide)).2.2.2.2.1 rfl rfl (by decide) (by decide) rfl
  · exact (runIndex_preflight_order_and_frame "/repo" {} _ _ {} "/repo"
      (by decide)).2.2.2.2.2 rfl rfl (by decide) (by decide) rfl

/-- C1: when every pre-flight check passes and the pipeline invocation
fails, `runIndex` finalizes the record of the identity to
`index_failed`, carrying the effective error message and the last
progress percentage observed from the progress events, persists it (the
in-memory and durable mappings agree, the persisted record being the
last entry of the save history), and only then propagates the failure
as its outcome — so a status query against the persisted state, even
after a restart, reflects `index_failed` with that message and
progress. -/
theorem runIndex_pipeline_failure_finalizes (pathArg : String) (options : IndexOptions)
    (w : RunWorld) (mgr : SnapshotManagerState) (ctx : ContextState)
    (events : List ProgressEvent) (error : PipelineError)
    (absolutePath : String)
    (hpath : absolutePath = ensureAbsolutePath w.cwd pathArg)
    (hex : w.fsExists absolutePath = true)
    (hdir : w.isDirectory absolutePath = true)
    (hst : getCodebaseStatus mgr absolutePath ≠ .indexing)
    (hforce : (w.hasIndex absolutePath && !options.force) = false)
    (hlimit : w.checkCollectionLimit = true)
    (hpipe : w.pipeline = .failure events error) :
    (runIndex pathArg options w mgr ctx).2.2 =
      .error (.pipelineFailed (effectiveMessage error)) ∧
    lookupRecord (runIndex pathArg options w mgr ctx).1.memory absolutePath =
      some (IndexRecord.mk .indexFailed (lastProgressOf events)
        (some (effectiveMessage error)) none) ∧
    (runIndex pathArg options w mgr ctx).1.disk =
      (runIndex pathArg options w mgr ctx).1.memory ∧
    (runIndex pathArg options w mgr ctx).1.saves.getLast? =
      some (runIndex pathArg options w mgr ctx).1.memory ∧
    getCodebaseStatus
      (loadCodebaseSnapshot (runIndex pathArg options w mgr ctx).1.disk) absolutePath =
      .indexFailed := by
  subst hpath
  have hrun : runIndex pathArg options w mgr ctx =
      (saveCodebaseSnapshot (setCodebaseIndexFailed
          (saveCodebaseSnapshot (setCodebaseIndexing mgr
            (ensureAbsolutePath w.cwd pathArg) 0))
          (ensureAbsolutePath w.cwd pathArg) (effectiveMessage error) (lastProgressOf events)),
        (if 0 < options.ignore.length then
            addCustomIgnorePatterns
              (if 0 < options.ext.length then addCustomExtensions ctx options.ext else ctx)
              options.ignore
          else if 0 < options.ext.length then addCustomExtensions ctx options.ext else ctx),
        .error (.pipelineFailed (effectiveMessage error))) := by
    unfold runIndex
    simp [hex, hdir, hst, hforce, hlimit, hpipe]
  rw [hrun]
  have hprior : lookupRecord
      (setCodebaseIndexing mgr (ensureAbsolutePath w.cwd pathArg) 0).memory
      (ensureAbsolutePath w.cwd pathArg) =
      some (IndexRecord.mk .indexing 0 none none) := by
    simp only [setCodebaseIndexing]
    exact lookupRecord_setRecord_self _ _ _
  refine ⟨rfl, ?_, rfl, ?_, ?_⟩
  · simp only [saveCodebaseSnapshot, setCodebaseIndexFailed, hprior, Option.bind_some]
    exact lookupRecord_setRecord_self _ _ _
  · simp [saveCodebaseSnapshot]
  · simp only [loadCodebaseSnapshot, saveCodebaseSnapshot, getCodebaseStatus,
      setCodebaseIndexFailed, hprior, Option.bind_some]
    rw [lookupRecord_setRecord_self]
    rfl

/-- Witness for C1, the failure scenario of the specification: indexing
`/repo` fails after progress events 10 and 37 with message
`backend timeout`; the persisted record carries `index_failed`,
progress 37 and that message, and the outcome is the propagated
failure. -/
theorem runIndex_pipeline_failure_finalizes_witness :
    (runIndex "/repo" {} (RunWorld.mk "/w" (fun _ => true) (fun _ => true) (fun _ => false) true
        (.failure [ProgressEvent.mk 10 "chunking", ProgressEvent.mk 37 "embedding"]
          (PipelineError.mk (some "backend timeout") "Error: backend timeout")))
      (loadCodebaseSnapshot []) {}).2.2 =
      .error (.pipelineFailed "backend timeout") ∧
    lookupRecord (runIndex "/repo" {} (RunWorld.mk "/w" (fun _ => true) (fun _ => true)
        (fun _ => false) true
        (.failure [ProgressEvent.mk 10 "chunking", ProgressEvent.mk 37 "embedding"]
          (PipelineError.mk (some "backend timeout") "Error: backend timeout")))
      (loadCodebaseSnapshot []) {}).1.disk "/repo" =
      some (IndexRecord.mk .indexFailed 37 (some "backend timeout") none) := by
  have h := runIndex_pipeline_failure_finalizes "/repo" {}
    (RunWorld.mk "/w" (fun _ => true) (fun _ => true) (fun _ => false) true
      (.failure [ProgressEvent.mk 10 "chunking", ProgressEvent.mk 37 "embedding"]
        (PipelineError.mk (some "backend timeout") "Error: backend timeout")))
    (loadCodebaseSnapshot []) {}
    [ProgressEvent.mk 10 "chunking", ProgressEvent.mk 37 "embedding"]
    (PipelineError.mk (some "backend timeout") "Error: backend timeout")
    "/repo" (by decide) rfl rfl (by decide) (by decide) rfl rfl
  refine ⟨?_, ?_⟩
  · have := h.1
    simpa [effectiveMessage] using this
  · have h2 := h.2.1
    have h3 := h.2.2.1
    rw [h3] at *
    simpa [effectiveMessage, lastProgressOf] using h2

/-- C4 counterexample: an explicit output dimensionality override of 0
is a present override, yet `getDimension()` is the registry dimension
3072, not the override — the `if (config.outputDimensionality)` guard
treats 0 as falsy and ignores it. -/
theorem vertex_override_zero_cex :
    (VertexAIEmbeddingConfig.mk "gemini-embedding-001" (some "proj") none
        (some 0)).outputDimensionality = some 0 ∧
    (VertexAIEmbedding.construct
        (VertexAIEmbeddingConfig.mk "gemini-embedding-001" (some "proj") none (some 0))
        {}).map VertexAIEmbedding.getDimension = .ok 3072 ∧
    (3072 : Nat) ≠ 0 := by
  refine ⟨rfl, ?_, by decide⟩
  decide

/-- C4 (amended): for every configuration with an explicit nonzero
output dimensionality override, `getDimension()` on the constructed
provider equals the override, regardless of the configured model, the
registry contents and the default dimension. -/
theorem vertex_override_nonzero_wins (config : VertexAIEmbeddingConfig) (env : VertexEnv)
    (d : Nat) (e : VertexAIEmbedding)
    (hd : config.outputDimensionality = some d) (hnz : d ≠ 0)
    (hok : VertexAIEmbedding.construct config env = .ok e) :
    e.getDimension = d := by
  simp only [VertexAIEmbedding.construct, hd] at hok
  by_cases hp : jsTruthy (jsOr config.projectId (jsOr env.vertexProject env.googleCloudProject)) = false
  · simp [hp] at hok
  · simp [hp, hnz] at hok
    rw [← hok]
    simp [VertexAIEmbedding.getDimension]

/-- Witness for C4 (amended): an override of 1536 on the registry model
wins over the registry dimension 3072. -/
theorem vertex_override_nonzero_wins_witness :
    (VertexAIEmbedding.construct
        (VertexAIEmbeddingConfig.mk "gemini-embedding-001" (some "proj") none (some 1536))
        {}).map VertexAIEmbedding.getDimension = .ok 1536 := by
  have hok : VertexAIEmbedding.construct
      (VertexAIEmbeddingConfig.mk "gemini-embedding-001" (some "proj") none (some 1536))
      ({} : VertexEnv) =
      .ok (VertexAIEmbedding.mk
        (VertexAIEmbeddingConfig.mk "gemini-embedding-001" (some "proj") none (some 1536))
        "proj" "global" 1536 2048) := by decide
  have hdim := vertex_override_nonzero_wins
    (VertexAIEmbeddingConfig.mk "gemini-embedding-001" (some "proj") none (some 1536)) {}
    1536 _ rfl (by decide) hok
  rw [hok]
  simp [Except.map, hdim]

/-- C7 counterexample: the empty model name is absent from the static
registry, but it is falsy, so `config.model || "gemini-embedding-001"`
resolves it to the registry model: `getSupportedDimensions()` is the
four-element Matryoshka list, not a singleton, and
`isDimensionSupported(1536)` holds although the resolved dimension is
3072. -/
theorem vertex_unknown_model_cex :
    getSupportedModels "" = none ∧
    (VertexAIEmbedding.construct (VertexAIEmbeddingConfig.mk "" (some "proj") none none)
        {}).map (fun e =>
          (e.getDimension, e.getSupportedDimensions, e.isDimensionSupported 1536)) =
      .ok (3072, [3072, 1536, 768, 256], true) ∧
    (1536 : Nat) ≠ 3072 := by
  refine ⟨by decide, ?_, by decide⟩
  decide

/-- C7 (amended): for every non-empty configured model name absent from
the static registry, construction without an explicit override resolves
dimension 3072 and maximum input token count 2048, and
`getSupportedDimensions()` is exactly the singleton of the resolved
default dimension, so `isDimensionSupported(d)` holds only for `d =
3072`. -/
theorem vertex_unknown_model_defaults (config : VertexAIEmbeddingConfig) (env : VertexEnv)
    (e : VertexAIEmbedding)
    (hm : config.model ≠ "") (hreg : getSupportedModels config.model = none)
    (hov : config.outputDimensionality = none)
    (hok : VertexAIEmbedding.construct config env = .ok e) :
    e.dimension = 3072 ∧ e.maxTokens = 2048 ∧
    e.getSupportedDimensions = [3072] ∧
    (∀ d, e.isDimensionSupported d = true ↔ d = 3072) := by
  have hstr : jsOrStr config.model "gemini-embedding-001" = config.model := by
    simp [jsOrStr, hm]
  simp only [VertexAIEmbedding.construct, hov, hstr, updateDimensionForModel, hreg] at hok
  by_cases hp : jsTruthy (jsOr config.projectId (jsOr env.vertexProject env.googleCloudProject)) = false
  · simp [hp] at hok
  · simp [hp] at hok
    rw [← hok]
    refine ⟨rfl, rfl, ?_, ?_⟩
    · simp [VertexAIEmbedding.getSupportedDimensions, hstr, hreg]
    · intro d
      simp [VertexAIEmbedding.isDimensionSupported, VertexAIEmbedding.getSupportedDimensions,
        hstr, hreg, List.contains, eq_comm]

/-- Witness for C7 (amended): the unrecognized model name
`custom-model` resolves dimension 3072, token limit 2048 and singleton
supported dimensions. -/
theorem vertex_unknown_model_defaults_witness :
    (VertexAIEmbedding.construct (VertexAIEmbeddingConfig.mk "custom-model" (some "proj") none none)
        {}).map (fun e =>
          (e.dimension, e.maxTokens, e.getSupportedDimensions, e.isDimensionSupported 3072,
            e.isDimensionSupported 1536)) =
      .ok (3072, 2048, [3072], true, false) := by
  have hok : VertexAIEmbedding.construct
      (VertexAIEmbeddingConfig.mk "custom-model" (some "proj") none none) ({} : VertexEnv) =
      .ok (VertexAIEmbedding.mk
        (VertexAIEmbeddingConfig.mk "custom-model" (some "proj") none none)
        "proj" "global" 3072 2048) := by decide
  have h := vertex_unknown_model_defaults
    (VertexAIEmbeddingConfig.mk "custom-model" (some "proj") none none) {} _
    (by decide) (by decide) rfl hok
  have hsup : (VertexAIEmbedding.mk
      (VertexAIEmbeddingConfig.mk "custom-model" (some "proj") none none)
      "proj" "global" 3072 2048).isDimensionSupported 1536 = false := by
    have := h.2.2.2 1536
    revert this
    cases (VertexAIEmbedding.mk
      (VertexAIEmbeddingConfig.mk "custom-model" (some "proj") none none)
      "proj" "global" 3072 2048).isDimensionSupported 1536 <;> simp
  rw [hok]
  simp [Except.map, h.1, h.2.1, h.2.2.1, (h.2.2.2 3072).mpr rfl, hsup]

/-- C8: the provider constructor resolves the project identity from the
explicit configuration first, then `VERTEX_PROJECT`, then
`GOOGLE_CLOUD_PROJECT`, and the location from the explicit
configuration, then `VERTEX_LOCATION`, then `GOOGLE_CLOUD_LOCATION`,
then the hard-coded fallback `global`, earlier (truthy) tiers taking
precedence; construction fails with the configuration error exactly
when no project tier is truthy — so with every tier empty, construction
fails on the project identity (the location never fails, thanks to its
fallback). -/
theorem vertex_tiered_config_resolution (config : VertexAIEmbeddingConfig) (env : VertexEnv) :
    (∀ s, config.projectId = some s → s ≠ "" →
      ∀ e, VertexAIEmbedding.construct config env = .ok e → e.projectId = s) ∧
    (jsTruthy config.projectId = false → ∀ s, env.vertexProject = some s → s ≠ "" →
      ∀ e, VertexAIEmbedding.construct config env = .ok e → e.projectId = s) ∧
    (jsTruthy config.projectId = false → jsTruthy env.vertexProject = false →
      ∀ s, env.googleCloudProject = some s → s ≠ "" →
      ∀ e, VertexAIEmbedding.construct config env = .ok e → e.projectId = s) ∧
    ((∃ m, VertexAIEmbedding.construct config env = .error m) ↔
      (jsTruthy config.projectId = false ∧ jsTruthy env.vertexProject = false ∧
        jsTruthy env.googleCloudProject = false)) ∧
    (∀ s, config.location = some s → s ≠ "" →
      ∀ e, VertexAIEmbedding.construct config env = .ok e → e.location = s) ∧
    (jsTruthy config.location = false → ∀ s, env.vertexLocation = some s → s ≠ "" →
      ∀ e, VertexAIEmbedding.construct config env = .ok e → e.location = s) ∧
    (jsTruthy config.location = false → jsTruthy env.vertexLocation = false →
      ∀ s, env.googleCloudLocation = some s → s ≠ "" →
      ∀ e, VertexAIEmbedding.construct config env = .ok e → e.location = s) ∧
    (jsTruthy config.location = false → jsTruthy env.vertexLocation = false →
      jsTruthy env.googleCloudLocation = false →
      ∀ e, VertexAIEmbedding.construct config env = .ok e → e.location = "global") ∧
    (config.projectId = none → env.vertexProject = none → env.googleCloudProject = none →
      VertexAIEmbedding.construct config env =
        .error "[VertexAIEmbedding] Project ID is required. Set projectId in config or VERTEX_PROJECT / GOOGLE_CLOUD_PROJECT env.") := by
  refine ⟨?_, ?_, ?_, ?_, ?_, ?_, ?_, ?_, ?_⟩
  · intro s hs hne e hok
    rw [vertex_projectId_of_ok config env e hok, hs,
      jsOr_of_truthy _ _ (jsTruthy_some_ne s hne)]
    rfl
  · intro hf s hs hne e hok
    rw [vertex_projectId_of_ok config env e hok, jsOr_of_falsy _ _ hf, hs,
      jsOr_of_truthy _ _ (jsTruthy_some_ne s hne)]
    rfl
  · intro hf1 hf2 s hs hne e hok
    rw [vertex_projectId_of_ok config env e hok, jsOr_of_falsy _ _ hf1,
      jsOr_of_falsy _ _ hf2, hs]
    rfl
  · constructor
    · rintro ⟨m, hm⟩
      rw [vertex_construct_eq] at hm
      by_cases hc : jsTruthy (jsOr config.projectId
          (jsOr env.vertexProject env.googleCloudProject)) = false
      · rw [jsTruthy_jsOr, jsTruthy_jsOr] at hc
        simpa using hc
      · rw [if_neg hc] at hm; cases hm
    · rintro ⟨h1, h2, h3⟩
      refine ⟨"[VertexAIEmbedding] Project ID is required. Set projectId in config or VERTEX_PROJECT / GOOGLE_CLOUD_PROJECT env.", ?_⟩
      rw [vertex_construct_eq, if_pos]
      rw [jsTruthy_jsOr, jsTruthy_jsOr, h1, h2, h3]
      rfl
  · intro s hs hne e hok
    rw [vertex_location_of_ok config env e hok, hs,
      jsOr_of_truthy _ _ (jsTruthy_some_ne s hne)]
    rfl
  · intro hf s hs hne e hok
    rw [vertex_location_of_ok config env e hok, jsOr_of_falsy _ _ hf, hs,
      jsOr_of_truthy _ _ (jsTruthy_some_ne s hne)]
    rfl
  · intro hf1 hf2 s hs hne e hok
    rw [vertex_location_of_ok config env e hok, jsOr_of_falsy _ _ hf1,
      jsOr_of_falsy _ _ hf2, hs, jsOr_of_truthy _ _ (jsTruthy_some_ne s hne)]
    rfl
  · intro hf1 hf2 hf3 e hok
    rw [vertex_location_of_ok config env e hok, jsOr_of_falsy _ _ hf1,
      jsOr_of_falsy _ _ hf2, jsOr_of_falsy _ _ hf3]
    rfl
  · intro h1 h2 h3
    rw [vertex_construct_eq, h1, h2, h3, if_pos]
    rfl

/-- Witness for C8, exercising every tier at concrete inputs: explicit
configuration wins for project and location; with it absent the first
environment variable wins, then the second; with every location tier
empty the location falls back to `global`; and with every project tier
empty construction fails with the project configuration error. -/
theorem vertex_tiered_config_resolution_witness :
    (VertexAIEmbedding.construct (VertexAIEmbeddingConfig.mk "m" (some "p1") (some "l1") none)
        (VertexEnv.mk (some "p2") (some "p3") (some "l2") (some "l3"))).map
      (fun e => (e.projectId, e.location)) = .ok ("p1", "l1") ∧
    (VertexAIEmbedding.construct (VertexAIEmbeddingConfig.mk "m" none none none)
        (VertexEnv.mk (some "p2") (some "p3") (some "l2") (some "l3"))).map
      (fun e => (e.projectId, e.location)) = .ok ("p2", "l2") ∧
    (VertexAIEmbedding.construct (VertexAIEmbeddingConfig.mk "m" none none none)
        (VertexEnv.mk none (some "p3") none (some "l3"))).map
      (fun e => (e.projectId, e.location)) = .ok ("p3", "l3") ∧
    (VertexAIEmbedding.construct (VertexAIEmbeddingConfig.mk "m" none none none)
        (VertexEnv.mk (some "p2") none none none)).map
      (fun e => e.location) = .ok "global" ∧
    VertexAIEmbedding.construct (VertexAIEmbeddingConfig.mk "m" none none none)
        (VertexEnv.mk none none none none) =
      .error "[VertexAIEmbedding] Project ID is required. Set projectId in config or VERTEX_PROJECT / GOOGLE_CLOUD_PROJECT env." ∧
    (∃ m, VertexAIEmbedding.construct (VertexAIEmbeddingConfig.mk "m" none none none)
        (VertexEnv.mk none none none none) = .error m) := by
  have hok1 : VertexAIEmbedding.construct
      (VertexAIEmbeddingConfig.mk "m" (some "p1") (some "l1") none)
      (VertexEnv.mk (some "p2") (some "p3") (some "l2") (some "l3")) =
      .ok (VertexAIEmbedding.mk (VertexAIEmbeddingConfig.mk "m" (some "p1") (some "l1") none)
        "p1" "l1" 3072 2048) := by decide
  have hok2 : VertexAIEmbedding.construct
      (VertexAIEmbeddingConfig.mk "m" none none none)
      (VertexEnv.mk (some "p2") (some "p3") (some "l2") (some "l3")) =
      .ok (VertexAIEmbedding.mk (VertexAIEmbeddingConfig.mk "m" none none none)
        "p2" "l2" 3072 2048) := by decide
  have hok3 : VertexAIEmbedding.construct
      (VertexAIEmbeddingConfig.mk "m" none none none)
      (VertexEnv.mk none (some "p3") none (some "l3")) =
      .ok (VertexAIEmbedding.mk (VertexAIEmbeddingConfig.mk "m" none none none)
        "p3" "l3" 3072 2048) := by decide
  have hok4 : VertexAIEmbedding.construct
      (VertexAIEmbeddingConfig.mk "m" none none none)
      (VertexEnv.mk (some "p2") none none none) =
      .ok (VertexAIEmbedding.mk (VertexAIEmbeddingConfig.mk "m" none none none)
        "p2" "global" 3072 2048) := by decide
  have h1 := vertex_tiered_config_resolution
    (VertexAIEmbeddingConfig.mk "m" (some "p1") (some "l1") none)
    (VertexEnv.mk (some "p2") (some "p3") (some "l2") (some "l3"))
  have h2 := vertex_tiered_config_resolution
    (VertexAIEmbeddingConfig.mk "m" none none none)
    (VertexEnv.mk (some "p2") (some "p3") (some "l2") (some "l3"))
  have h3 := vertex_tiered_config_resolution
    (VertexAIEmbeddingConfig.mk "m" none none none)
    (VertexEnv.mk none (some "p3") none (some "l3"))
  have h4 := vertex_tiered_config_resolution
    (VertexAIEmbeddingConfig.mk "m" none none none)
    (VertexEnv.mk (some "p2") none none none)
  have h5 := vertex_tiered_config_resolution
    (VertexAIEmbeddingConfig.mk "m" none none none)
    (VertexEnv.mk none none none none)
  refine ⟨?_, ?_, ?_, ?_, ?_, ?_⟩
  · rw [hok1]
    have ha := h1.1 "p1" rfl (by decide) _ hok1
    have hb := h1.2.2.2.2.1 "l1" rfl (by decide) _ hok1
    simp [Except.map, ha, hb]
  · rw [hok2]
    have ha := h2.2.1 rfl "p2" rfl (by decide) _ hok2
    have hb := h2.2.2.2.2.2.1 rfl "l2" rfl (by decide) _ hok2
    simp [Except.map, ha, hb]
  · rw [hok3]
    have ha := h3.2.2.1 rfl rfl "p3" rfl (by decide) _ hok3
    have hb := h3.2.2.2.2.2.2.1 rfl rfl "l3" rfl (by decide) _ hok3
    simp [Except.map, ha, hb]
  · rw [hok4]
    have hb := h4.2.2.2.2.2.2.2.1 rfl rfl rfl _ hok4
    simp [Except.map, hb]
  · exact h5.2.2.2.2.2.2.2.2 rfl rfl rfl
  · exact h5.2.2.2.1.mpr ⟨rfl, rfl, rfl⟩

/-- C5 counterexample: with two input texts but a well-formed backend
response carrying only one embedding, `embedBatch` succeeds with a
single vector — neither one vector per input nor a whole-call failure,
because the code never checks the response length against the input. -/
theorem vertexEmbedBatch_partial_result_cex :
    vertexEmbedBatch (.ok (VertexBatchResponse.mk (some [RawEmbedding.mk (some [1])]))) =
      .ok [EmbeddingVector.mk [1] 1] ∧
    (["a", "b"] : List String).length = 2 ∧
    [EmbeddingVector.mk [1] 1].length ≠ 2 := by
  refine ⟨rfl, rfl, by decide⟩

/-- C5 (amended): `embedBatch` is atomic over the backend response: a
response with one embedding per input, all carrying vector data, yields
exactly one vector per input in the same order (the i-th vector built
from the values of the i-th returned embedding); a thrown backend
failure, a response without an embeddings array, or any returned
embedding without vector data fails the whole call with the wrapped
provider error reporting the underlying cause, surfacing no partial
list.  (If a successful response carries a different number of
embeddings than inputs, the call returns that many vectors without
failing.) -/
theorem vertexEmbedBatch_atomic_spec (texts : List String) :
    (∀ (resp : VertexBatchResponse) (vss : List (List Rat)),
      resp.embeddings = some (vss.map fun v => RawEmbedding.mk (some v)) →
      vss.length = texts.length →
      vertexEmbedBatch (.ok resp) = .ok (vss.map fun v => EmbeddingVector.mk v v.length) ∧
      (vss.map fun v => EmbeddingVector.mk v v.length).length = texts.length) ∧
    (∀ f, vertexEmbedBatch (.error f) =
      .error (wrapBatchError (f.message.getD "Unknown error"))) ∧
    (∀ resp, resp.embeddings = none →
      vertexEmbedBatch (.ok resp) =
        .error (wrapBatchError "Vertex AI embedding API returned invalid response")) ∧
    (∀ resp embs e, resp.embeddings = some embs → e ∈ embs → e.values = none →
      vertexEmbedBatch (.ok resp) =
        .error (wrapBatchError "Vertex AI embedding API returned invalid embedding data")) := by
  refine ⟨?_, ?_, ?_, ?_⟩
  · intro resp vss hr hlen
    refine ⟨?_, by simpa using hlen⟩
    simp [vertexEmbedBatch, hr, collectEmbeddings_all_some, Except.mapError]
  · intro f
    rfl
  · intro resp hr
    simp [vertexEmbedBatch, hr]
  · intro resp embs e hr he hv
    simp [vertexEmbedBatch, hr, collectEmbeddings_missing_values embs e he hv, Except.mapError]

/-- Witness for C5 (amended) at the two-text batch of the
specification: a well-formed two-embedding response yields two vectors
in order; a thrown backend failure, a missing embeddings array and a
missing-values element each fail the whole call with the wrapped
message. -/
theorem vertexEmbedBatch_atomic_spec_witness :
    vertexEmbedBatch (.ok (VertexBatchResponse.mk
        (some [RawEmbedding.mk (some [1, 2]), RawEmbedding.mk (some [3])]))) =
      .ok [EmbeddingVector.mk [1, 2] 2, EmbeddingVector.mk [3] 1] ∧
    vertexEmbedBatch (.error (VertexBackendFailure.mk (some "socket hang up"))) =
      .error "Vertex AI batch embedding failed: socket hang up" ∧
    vertexEmbedBatch (.ok (VertexBatchResponse.mk none)) =
      .error "Vertex AI batch embedding failed: Vertex AI embedding API returned invalid response" ∧
    vertexEmbedBatch (.ok (VertexBatchResponse.mk
        (some [RawEmbedding.mk (some [1]), RawEmbedding.mk none]))) =
      .error "Vertex AI batch embedding failed: Vertex AI embedding API returned invalid embedding data" := by
  have h := vertexEmbedBatch_atomic_spec ["a", "b"]
  refine ⟨?_, ?_, ?_, ?_⟩
  · have := (h.1 (VertexBatchResponse.mk
        (some [RawEmbedding.mk (some [1, 2]), RawEmbedding.mk (some [3])]))
      [[1, 2], [3]] rfl rfl).1
    simpa using this
  · have := h.2.1 (VertexBackendFailure.mk (some "socket hang up"))
    simpa [wrapBatchError] using this
  · have := h.2.2.1 (VertexBatchResponse.mk none) rfl
    simpa [wrapBatchError] using this
  · have := h.2.2.2 (VertexBatchResponse.mk
        (some [RawEmbedding.mk (some [1]), RawEmbedding.mk none]))
      [RawEmbedding.mk (some [1]), RawEmbedding.mk none] (RawEmbedding.mk none)
      rfl (by simp) rfl
    simpa [wrapBatchError] using this

/-- C6 counterexample: `/a\..` and `/a/..` differ only by separator
style, yet they normalize differently and `normalizePath` is not
idempotent on `/a\..` — backslashes are unified only after `.`/`..`
resolution, so a backslash can hide a dot segment from `path.resolve`;
likewise `\a\b` and `/a/b` differ only by separator style but only the
latter is read as absolute on POSIX. -/
theorem normalizePath_backslash_cex :
    slashify ("/a\\..".data) = slashify ("/a/..".data) ∧
    normalizePath "/w" "/a\\.." = "/a/.." ∧
    normalizePath "/w" "/a/.." = "/" ∧
    normalizePath "/w" (normalizePath "/w" "/a\\..") ≠ normalizePath "/w" "/a\\.." ∧
    normalizePath "/w" "/a\\.." ≠ normalizePath "/w" "/a/.." ∧
    slashify ("\\a\\b".data) = slashify ("/a/b".data) ∧
    normalizePath "/w" "\\a\\b" ≠ normalizePath "/w" "/a/b" := by
  decide

/-- C6 (amended): on a well-formed working directory, `normalizePath`
is idempotent for every path whose separator-unified segments are all
plain names (no `.`, `..` or empty segment hidden behind either
separator, no trailing separator); two such paths that agree after
separator unification and agree on whether they begin with a forward
slash normalize to the same identity; and a trailing forward slash
never changes the result for any nonempty path. -/
theorem normalizePath_idempotent_separator_spec (cwd p q : String) :
    (GoodCwd cwd → GoodPath p →
      normalizePath cwd (normalizePath cwd p) = normalizePath cwd p) ∧
    (GoodCwd cwd → GoodPath p → slashify p.data = slashify q.data →
      (p.data.head? = some '/' ↔ q.data.head? = some '/') →
      normalizePath cwd p = normalizePath cwd q) ∧
    (p ≠ "" → normalizePath cwd (p ++ "/") = normalizePath cwd p) :=
  ⟨fun hc hp => normalizePath_idem cwd p hc hp,
    fun hc hp hsl hhead => normalizePath_sep_invariant cwd p q hc hp hsl hhead,
    fun h => normalizePath_trailing_slash cwd p h⟩

/-- Witness for C6 (amended) at the drive-letter examples of the
source comments: normalizing `C:\aaa\bbb` twice equals normalizing it
once, backslash and forward-slash spellings agree, and a trailing
slash is immaterial. -/
theorem normalizePath_idempotent_separator_spec_witness :
    normalizePath "/w" (normalizePath "/w" "C:\\aaa\\bbb") =
      normalizePath "/w" "C:\\aaa\\bbb" ∧
    normalizePath "/w" "C:\\aaa\\bbb" = normalizePath "/w" "C:/aaa/bbb" ∧
    normalizePath "/w" ("C:/aaa/bbb" ++ "/") = normalizePath "/w" "C:/aaa/bbb" := by
  have h := normalizePath_idempotent_separator_spec "/w" "C:\\aaa\\bbb" "C:/aaa/bbb"
  refine ⟨h.1 (by decide) (by decide),
    h.2.1 (by decide) (by decide) (by decide) (by decide), ?_⟩
  exact (normalizePath_idempotent_separator_spec "/w" "C:/aaa/bbb" "C:/aaa/bbb").2.2
    (by decide)

end ClaudeContext
